import Mathlib

/-!
Verification development for the ROSE binary-analysis core: the
`rose::BinaryAnalysis::Partitioner2::Function` data model
(Partitioner2/Function.h) and the `rose::BinaryAnalysis::Disassembler`
engine (Disassembler.h).  Machine addresses (`rose_addr_t`) are modelled
as `Nat`; the reason bitmask (C++ `unsigned`) is a `Nat` manipulated with
the bitwise operations that the source uses.  A fatal fail-fast
precondition violation (`ASSERT_forbid`, `ASSERT_forbid2`) is modelled by
returning `none`: no successor state exists, so the attempted mutation
leaves no observable change.
-/

namespace Rose

/-- Embedding of Partitioner2::DataBlock: base virtual address, size, and a
pointer identity `ident` standing for the C++ `DataBlock::Ptr` object
identity (two distinct allocations with equal contents are distinct
pointers). -/
structure DataBlock where
  ident : Nat
  address : Nat
  size : Nat
deriving DecidableEq

/-- Embedding of Partitioner2::Function state: entry address, optional name
and comment, reason bitmask, owned basic-block addresses
(`std::set<rose_addr_t> bblockVas_`), owned data blocks sorted by starting
address, frozen flag, and the cached no-op analysis result
(`Sawyer::Cached<bool> isNoop_`, `none` when the cache is clear). -/
structure Function where
  entryVa : Nat
  name : String
  comment : String
  reasons : Nat
  bblockVas : Finset Nat
  dblocks : List DataBlock
  isFrozen : Bool
  isNoop : Option Bool
deriving DecidableEq

/-- Embedding of Function::clearCache: reset the cached members to their
initial values. -/
def Function.clearCache (f : Function) : Function :=
  { f with isNoop := none }

/-- Embedding of the Function constructor (reached via Function::instance):
the entry address is inserted into the basic-block address set, the
comment is empty, the function starts thawed with a clear cache. -/
def Function.make (entryVa : Nat) (name : String) (reasons : Nat) : Function :=
  { entryVa := entryVa, name := name, comment := "", reasons := reasons,
    bblockVas := {entryVa}, dblocks := [], isFrozen := false, isNoop := none }

/-- Embedding of Function::address. -/
def Function.address (f : Function) : Nat :=
  f.entryVa

/-- Embedding of Function::basicBlockAddresses. -/
def Function.basicBlockAddresses (f : Function) : Finset Nat :=
  f.bblockVas

/-- Embedding of Function::ownsBasicBlock. -/
def Function.ownsBasicBlock (f : Function) (bblockVa : Nat) : Bool :=
  decide (bblockVa ∈ f.bblockVas)

/-- Embedding of Function::nBasicBlocks. -/
def Function.nBasicBlocks (f : Function) : Nat :=
  f.bblockVas.card

/-- Embedding of Function::dataBlocks. -/
def Function.dataBlocks (f : Function) : List DataBlock :=
  f.dblocks

/-- Embedding of Function::insertBasicBlock.  The source asserts
`ASSERT_forbid(isFrozen_)` (modelled as `none`), then inserts the address
into `bblockVas_`; if the insertion actually happened it clears the cache
and returns true, otherwise it returns false. -/
def Function.insertBasicBlock (f : Function) (bblockVa : Nat) : Option (Function × Bool) :=
  if f.isFrozen then none
  else if bblockVa ∈ f.bblockVas then
    some ({ f with bblockVas := insert bblockVa f.bblockVas }, false)
  else
    some (Function.clearCache { f with bblockVas := insert bblockVa f.bblockVas }, true)

/-- Embedding of Function::eraseBasicBlock.  The source asserts
`ASSERT_forbid(isFrozen_)` and `ASSERT_forbid2(bblockVa==entryVa_, ...)`
(both modelled as `none`), then unconditionally calls clearCache() and
erases the address from `bblockVas_`. -/
def Function.eraseBasicBlock (f : Function) (bblockVa : Nat) : Option Function :=
  if f.isFrozen then none
  else if bblockVa = f.entryVa then none
  else some { f.clearCache with bblockVas := f.bblockVas.erase bblockVa }

/-- Insertion into the data-block list keeping it sorted by starting
address. -/
def insertSortedDB (db : DataBlock) : List DataBlock → List DataBlock
  | [] => [db]
  | x :: xs => if db.address ≤ x.address then db :: x :: xs else x :: insertSortedDB db xs

/-- Modelled from the spec: the body of Function::insertDataBlock is not
under src (only its declaration and doc comment are).  Per the spec, while
frozen the call must fail fast (modelled as `none`); the data block
pointer must be non-null (a null argument, `none`, is a precondition
violation); inserting a block already owned by this function is a no-op
returning false; otherwise the block is inserted into the sorted list,
cached derived properties are invalidated, and the method returns true. -/
def Function.insertDataBlock (f : Function) (dblock : Option DataBlock) : Option (Function × Bool) :=
  if f.isFrozen then none
  else
    match dblock with
    | none => none
    | some db =>
      if db ∈ f.dblocks then some (f, false)
      else some ({ f with dblocks := insertSortedDB db f.dblocks, isNoop := none }, true)

/-- Modelled from the spec: the body of Function::eraseDataBlock is not
under src (only its declaration and doc comment are).  Per the spec, while
frozen the call must fail fast (modelled as `none`); if the pointer is
null or the block is not owned by this function the call is a no-op;
otherwise the block is removed and caches are invalidated. -/
def Function.eraseDataBlock (f : Function) (dblock : Option DataBlock) : Option Function :=
  if f.isFrozen then none
  else
    match dblock with
    | none => some f
    | some db =>
      if db ∈ f.dblocks then some ({ f with dblocks := f.dblocks.erase db, isNoop := none })
      else some f

/-- Embedding of the private Function::freeze (called by the Partitioner
when the CFG takes ownership). -/
def Function.freeze (f : Function) : Function :=
  { f with isFrozen := true }

/-- Embedding of the private Function::thaw. -/
def Function.thaw (f : Function) : Function :=
  { f with isFrozen := false }

/-- Embedding of the name setter `void name(const std::string&)`. -/
def Function.setName (f : Function) (s : String) : Function :=
  { f with name := s }

/-- Embedding of the comment setter `void comment(const std::string&)`. -/
def Function.setComment (f : Function) (s : String) : Function :=
  { f with comment := s }

/-- Embedding of the reasons setter `void reasons(unsigned)`. -/
def Function.setReasons (f : Function) (reasons : Nat) : Function :=
  { f with reasons := reasons }

/-- Embedding of Function::insertReasons: `reasons_ |= reasons`. -/
def Function.insertReasons (f : Function) (reasons : Nat) : Function :=
  { f with reasons := f.reasons ||| reasons }

/-- Embedding of Function::eraseReasons: `reasons_ &= ~reasons`, rendered
on `Nat` as `Nat.ldiff` (keep exactly the bits not present in the
argument, which agrees with the 32-bit `& ~` on unsigned values). -/
def Function.eraseReasons (f : Function) (reasons : Nat) : Function :=
  { f with reasons := Nat.ldiff f.reasons reasons }

/-- One basic-block mutation request against a Function. -/
inductive BBOp where
  | insertBB (va : Nat)
  | eraseBB (va : Nat)
deriving DecidableEq

/-- Apply one basic-block mutation; a fail-fast rejection (`none`) leaves
the function unchanged, matching the fact that the fatal assertion fires
before any state is modified. -/
def Function.applyBBOp (f : Function) (op : BBOp) : Function :=
  match op with
  | .insertBB va =>
    match f.insertBasicBlock va with
    | some (g, _) => g
    | none => f
  | .eraseBB va =>
    match f.eraseBasicBlock va with
    | some g => g
    | none => f

/-- Run a sequence of basic-block mutations. -/
def Function.runBBOps (f : Function) : List BBOp → Function
  | [] => f
  | op :: ops => (f.applyBBOp op).runBBOps ops

/-- Concrete thawed function whose no-op analysis result is cached. -/
def noopCachedFn : Function :=
  { entryVa := 4096, name := "", comment := "", reasons := 0,
    bblockVas := {4096}, dblocks := [], isFrozen := false, isNoop := some true }

/-- Embedding of Disassembler::SEARCH_FOLLOWING. -/
def SEARCH_FOLLOWING : Nat := 0x0001

/-- Embedding of Disassembler::SEARCH_IMMEDIATE. -/
def SEARCH_IMMEDIATE : Nat := 0x0002

/-- Embedding of Disassembler::SEARCH_WORDS. -/
def SEARCH_WORDS : Nat := 0x0004

/-- Embedding of Disassembler::SEARCH_ALLBYTES. -/
def SEARCH_ALLBYTES : Nat := 0x0008

/-- Embedding of Disassembler::SEARCH_UNUSED. -/
def SEARCH_UNUSED : Nat := 0x0010

/-- Embedding of Disassembler::SEARCH_NONEXE. -/
def SEARCH_NONEXE : Nat := 0x0020

/-- Embedding of Disassembler::SEARCH_DEADEND. -/
def SEARCH_DEADEND : Nat := 0x0040

/-- Embedding of Disassembler::SEARCH_UNKNOWN. -/
def SEARCH_UNKNOWN : Nat := 0x0080

/-- Embedding of Disassembler::SEARCH_FUNCSYMS. -/
def SEARCH_FUNCSYMS : Nat := 0x0100

/-- Embedding of Disassembler::SEARCH_DEFAULT. -/
def SEARCH_DEFAULT : Nat := 0x0101

/-- Embedding of MemoryMap::EXECUTABLE, the default protection mask the
constructor stores in p_protection. -/
def MM_PROT_EXEC : Nat := 4

/-- Embedding of the architecture-independent Disassembler settings that
the default constructor initializes: `p_search(SEARCH_DEFAULT)`,
`p_wordsize(4)`, `p_alignment(4)`, `p_ndisassembled(0)`,
`p_protection(MemoryMap::EXECUTABLE)`. -/
structure Disassembler where
  p_search : Nat
  p_wordsize : Nat
  p_alignment : Nat
  p_ndisassembled : Nat
  p_protection : Nat
deriving DecidableEq

/-- Embedding of the Disassembler default constructor. -/
def Disassembler.init : Disassembler :=
  { p_search := SEARCH_DEFAULT, p_wordsize := 4, p_alignment := 4,
    p_ndisassembled := 0, p_protection := MM_PROT_EXEC }

/-- Embedding of Disassembler::get_search. -/
def Disassembler.get_search (d : Disassembler) : Nat :=
  d.p_search

/-- Embedding of Disassembler::set_search. -/
def Disassembler.set_search (d : Disassembler) (bits : Nat) : Disassembler :=
  { d with p_search := bits }

/-- Modelled from the spec: one immutable decoded instruction record with
its starting virtual address, byte length, and the set of statically
determinable successor addresses (empty if indeterminate). -/
structure Instr where
  addr : Nat
  size : Nat
  succs : List Nat
deriving DecidableEq

/-- Modelled from the spec: the body of Disassembler::disassembleBlock is
not under src (only its declaration and doc comment are).  The decoder
argument `dec` abstracts the architecture-specific disassembleOne: `none`
means the instruction at that address cannot be decoded (decode error or
buffer bounds exceeded).  Starting at an address, successive instructions
are decoded; an instruction with exactly one successor equal to its own
fall-through address continues the block, anything else ends it with the
final instruction's successors as the block successors.  If the first
instruction cannot be decoded an exception bound to that address is
thrown (`Except.error`).  If a later instruction cannot be decoded, then
with the dead-end policy set the block is truncated before the failing
instruction and the failing address is recorded as a successor, while
with the policy clear the entire partially built block is discarded and
the exception carries the failing instruction's address, the successor
set staying unmodified.  `fuel` bounds the loop (the real loop is bounded
by the finite buffer); exhaustion is modelled as an error. -/
def disassembleBlockR (dec : Nat → Option Instr) (deadend : Bool) :
    Nat → Nat → Bool → Except Nat (List Instr × List Nat)
  | 0, va, _ => Except.error va
  | fuel+1, va, isFirst =>
    match dec va with
    | none =>
      if isFirst then Except.error va
      else if deadend then Except.ok ([], [va])
      else Except.error va
    | some insn =>
      if insn.succs = [va + insn.size] then
        match disassembleBlockR dec deadend fuel (va + insn.size) false with
        | Except.ok (rest, succs) => Except.ok (insn :: rest, succs)
        | Except.error e => Except.error e
      else
        Except.ok ([insn], insn.succs)

/-- Modelled from the spec: the public disassembleBlock entry point starts
with an empty partial block (the next decode is the first instruction). -/
def disassembleBlock (dec : Nat → Option Instr) (deadend : Bool) (fuel va : Nat) :
    Except Nat (List Instr × List Nat) :=
  disassembleBlockR dec deadend fuel va true

/-- Proposition that the decoder decodes a straight-line chain of
instructions from `va` to `endVa`: each instruction decodes at the
running address and has exactly one successor, its fall-through
address. -/
def decodesChain (dec : Nat → Option Instr) : Nat → List Instr → Nat → Prop
  | va, [], endVa => va = endVa
  | va, insn :: rest, endVa =>
    dec va = some insn ∧ insn.succs = [va + insn.size] ∧
    decodesChain dec (va + insn.size) rest endVa

/-- Decoder for the truncated-buffer scenario: two one-byte instructions
at 0 and 1 falling through, then a decode failure at address 2. -/
def truncDec : Nat → Option Instr := fun va =>
  if va = 0 then some ⟨0, 1, [1]⟩
  else if va = 1 then some ⟨1, 1, [2]⟩
  else none

/-- Straight-line chain check on a finished block: every non-final
instruction has exactly one successor, equal to the address of the next
instruction in the block (which is its own fall-through address). -/
def chainedB : List Instr → Bool
  | [] => true
  | [_] => true
  | a :: b :: rest =>
    decide (a.succs = [a.addr + a.size]) && decide (b.addr = a.addr + a.size) &&
      chainedB (b :: rest)

/-- Decoder with a one-byte no-op at 0 followed by a return (no
successors) at 1. -/
def nopRetDec : Nat → Option Instr := fun va =>
  if va = 0 then some ⟨0, 1, [1]⟩ else if va = 1 then some ⟨1, 1, []⟩ else none

/-- Unconditional-jump instruction: exactly one successor that is not the
fall-through address. -/
def jmpInstr : Instr := ⟨0, 2, [16]⟩

/-- Decoder producing only the jump at address 0. -/
def jmpDec : Nat → Option Instr := fun va => if va = 0 then some jmpInstr else none

/-- Modelled from the spec: the observable state of one disassembleBuffer
pass: the worklist of candidate addresses (`std::set`), the key sets of
the InstructionMap and the BadMap, and the trace of addresses where a
block attempt was actually made (in order). -/
structure DisState where
  worklist : Finset Nat
  insns : Finset Nat
  bad : Finset Nat
  tried : List Nat
deriving DecidableEq

/-- Address immediately after a completed block, queued by the
SEARCH_FOLLOWING heuristic. -/
def blockFollowing (insns : List Instr) : Finset Nat :=
  match insns.getLast? with
  | none => ∅
  | some l => {l.addr + l.size}

/-- Modelled from the spec: one iteration of the disassembleBuffer
worklist loop (the body is not under src, only its declaration and doc
comment are).  The lowest worklist address is taken (std::set iteration
order); an address already present in the InstructionMap or BadMap is
dropped without another attempt; otherwise disassembleBlock runs at that
address: on success the block's instruction addresses enter the
InstructionMap, the block successors (and, with SEARCH_FOLLOWING, the
address after the block) are fed back into the worklist; on failure the
address is routed into the BadMap.  Bad instructions have no
successors. -/
def dStep (dec : Nat → Option Instr) (search bfuel : Nat) (st : DisState)
    (h : st.worklist.Nonempty) : DisState :=
  if st.worklist.min' h ∈ st.insns ∨ st.worklist.min' h ∈ st.bad then
    { st with worklist := st.worklist.erase (st.worklist.min' h) }
  else
    match disassembleBlock dec (decide (search &&& SEARCH_DEADEND ≠ 0)) bfuel
        (st.worklist.min' h) with
    | Except.ok (binsns, bsuccs) =>
      { worklist := (st.worklist.erase (st.worklist.min' h) ∪ bsuccs.toFinset) ∪
          (if search &&& SEARCH_FOLLOWING ≠ 0 then blockFollowing binsns else ∅),
        insns := st.insns ∪ (binsns.map Instr.addr).toFinset,
        bad := st.bad,
        tried := st.tried ++ [st.worklist.min' h] }
    | Except.error _ =>
      { st with
          worklist := st.worklist.erase (st.worklist.min' h)
          bad := insert (st.worklist.min' h) st.bad
          tried := st.tried ++ [st.worklist.min' h] }

/-- Modelled from the spec: the disassembleBuffer worklist loop, iterated
until the worklist is empty (`ofuel` bounds the number of iterations; the
loop state is returned unchanged once the worklist empties). -/
def dRun (dec : Nat → Option Instr) (search bfuel : Nat) : Nat → DisState → DisState
  | 0, st => st
  | n+1, st =>
    if h : st.worklist.Nonempty then
      dRun dec search bfuel n (dStep dec search bfuel st h)
    else st

/-- Modelled from the spec: disassembleBuffer over a seed workset,
starting from empty InstructionMap and BadMap. -/
def disassembleBuffer (dec : Nat → Option Instr) (search bfuel ofuel : Nat)
    (workset : List Nat) : DisState :=
  dRun dec search bfuel ofuel
    { worklist := workset.toFinset, insns := ∅, bad := ∅, tried := [] }

/-- Invariant of the disassembleBuffer loop: every InstructionMap key is
an address whose block attempt succeeds, every BadMap key is an address
whose block attempt fails, the attempt trace has no duplicates, and every
attempted address has been settled into one of the two maps. -/
def SettledInv (dec : Nat → Option Instr) (de : Bool) (bfuel : Nat) (st : DisState) : Prop :=
  (∀ a ∈ st.insns, ∃ insns succs, disassembleBlock dec de bfuel a = Except.ok (insns, succs)) ∧
  (∀ a ∈ st.bad, ∃ e, disassembleBlock dec de bfuel a = Except.error e) ∧
  st.tried.Nodup ∧
  (∀ a ∈ st.tried, a ∈ st.insns ∨ a ∈ st.bad)

theorem Function.applyBBOp_entryVa (f : Function) (op : BBOp) :
    (f.applyBBOp op).entryVa = f.entryVa := by
  cases op with
  | insertBB va =>
    by_cases hf : f.isFrozen
    · simp [Function.applyBBOp, Function.insertBasicBlock, hf]
    · by_cases hm : va ∈ f.bblockVas <;>
        simp [Function.applyBBOp, Function.insertBasicBlock, hf, hm, Function.clearCache]
  | eraseBB va =>
    by_cases hf : f.isFrozen
    · simp [Function.applyBBOp, Function.eraseBasicBlock, hf]
    · by_cases he : va = f.entryVa <;>
        simp [Function.applyBBOp, Function.eraseBasicBlock, hf, he, Function.clearCache]

theorem Function.applyBBOp_isFrozen (f : Function) (op : BBOp) :
    (f.applyBBOp op).isFrozen = f.isFrozen := by
  cases op with
  | insertBB va =>
    by_cases hf : f.isFrozen
    · simp [Function.applyBBOp, Function.insertBasicBlock, hf]
    · by_cases hm : va ∈ f.bblockVas <;>
        simp [Function.applyBBOp, Function.insertBasicBlock, hf, hm, Function.clearCache]
  | eraseBB va =>
    by_cases hf : f.isFrozen
    · simp [Function.applyBBOp, Function.eraseBasicBlock, hf]
    · by_cases he : va = f.entryVa <;>
        simp [Function.applyBBOp, Function.eraseBasicBlock, hf, he, Function.clearCache]

theorem Function.applyBBOp_entry_mem (f : Function) (op : BBOp)
    (h : f.entryVa ∈ f.bblockVas) :
    (f.applyBBOp op).entryVa ∈ (f.applyBBOp op).bblockVas := by
  cases op with
  | insertBB va =>
    by_cases hf : f.isFrozen
    · simpa [Function.applyBBOp, Function.insertBasicBlock, hf] using h
    · by_cases hm : va ∈ f.bblockVas
      · simp only [Function.applyBBOp, Function.insertBasicBlock, hf, if_false,
          Bool.false_eq_true, hm, if_true]
        exact Finset.mem_insert_of_mem h
      · simp only [Function.applyBBOp, Function.insertBasicBlock, hf, if_false,
          Bool.false_eq_true, hm, if_true, Function.clearCache]
        exact Finset.mem_insert_of_mem h
  | eraseBB va =>
    by_cases hf : f.isFrozen
    · simpa [Function.applyBBOp, Function.eraseBasicBlock, hf] using h
    · by_cases he : va = f.entryVa
      · simpa [Function.applyBBOp, Function.eraseBasicBlock, hf, he] using h
      · simp only [Function.applyBBOp, Function.eraseBasicBlock, hf, if_false,
          Bool.false_eq_true, he, if_true, Function.clearCache]
        exact Finset.mem_erase.mpr ⟨fun hx => he hx.symm, h⟩

theorem Function.runBBOps_entryVa (f : Function) (ops : List BBOp) :
    (f.runBBOps ops).entryVa = f.entryVa := by
  induction ops generalizing f with
  | nil => rfl
  | cons op ops ih =>
    simp only [Function.runBBOps]
    rw [ih, Function.applyBBOp_entryVa]

theorem Function.runBBOps_isFrozen (f : Function) (ops : List BBOp) :
    (f.runBBOps ops).isFrozen = f.isFrozen := by
  induction ops generalizing f with
  | nil => rfl
  | cons op ops ih =>
    simp only [Function.runBBOps]
    rw [ih, Function.applyBBOp_isFrozen]

theorem Function.runBBOps_entry_mem (f : Function) (ops : List BBOp)
    (h : f.entryVa ∈ f.bblockVas) :
    (f.runBBOps ops).entryVa ∈ (f.runBBOps ops).bblockVas := by
  induction ops generalizing f with
  | nil => exact h
  | cons op ops ih =>
    simp only [Function.runBBOps]
    exact ih _ (Function.applyBBOp_entry_mem f op h)

/-- C1: for every Function with isFrozen() true, each of insertBasicBlock,
eraseBasicBlock, insertDataBlock and eraseDataBlock is rejected by the
fatal fail-fast precondition check (modelled as `none`); since no
successor state is produced, the basic-block address set and data-block
list are unchanged by the attempt. -/
theorem frozen_function_rejects_mutators (f : Function) (va : Nat) (db : Option DataBlock)
    (h : f.isFrozen = true) :
    f.insertBasicBlock va = none ∧ f.eraseBasicBlock va = none ∧
    f.insertDataBlock db = none ∧ f.eraseDataBlock db = none := by
  refine ⟨?_, ?_, ?_, ?_⟩ <;>
    simp [Function.insertBasicBlock, Function.eraseBasicBlock,
      Function.insertDataBlock, Function.eraseDataBlock, h]

theorem frozen_function_rejects_mutators_witness :
    ((Function.make 4096 "main" 0).freeze).insertBasicBlock 4100 = none ∧
    ((Function.make 4096 "main" 0).freeze).eraseBasicBlock 4100 = none ∧
    ((Function.make 4096 "main" 0).freeze).insertDataBlock (some ⟨1, 8192, 4⟩) = none ∧
    ((Function.make 4096 "main" 0).freeze).eraseDataBlock (some ⟨1, 8192, 4⟩) = none :=
  frozen_function_rejects_mutators ((Function.make 4096 "main" 0).freeze) 4100
    (some ⟨1, 8192, 4⟩) rfl

/-- C2: starting from a freshly constructed Function and running any
sequence of insertBasicBlock/eraseBasicBlock requests, the entry address
is always a member of the basic-block address set (it is inserted by the
constructor and preserved by every operation), and eraseBasicBlock
applied to the entry address is rejected by the fatal fail-fast check
(`none`), leaving the function unchanged. -/
theorem function_entry_invariant (entryVa : Nat) (nm : String) (reasons : Nat)
    (ops : List BBOp) :
    (((Function.make entryVa nm reasons).runBBOps ops).address ∈
      ((Function.make entryVa nm reasons).runBBOps ops).basicBlockAddresses) ∧
    (((Function.make entryVa nm reasons).runBBOps ops).eraseBasicBlock
      ((Function.make entryVa nm reasons).runBBOps ops).address = none) ∧
    (((Function.make entryVa nm reasons).runBBOps ops).applyBBOp
      (BBOp.eraseBB (((Function.make entryVa nm reasons).runBBOps ops).address)) =
      (Function.make entryVa nm reasons).runBBOps ops) := by
  have hmem : ((Function.make entryVa nm reasons).runBBOps ops).entryVa ∈
      ((Function.make entryVa nm reasons).runBBOps ops).bblockVas := by
    apply Function.runBBOps_entry_mem
    simp [Function.make]
  have herase : ((Function.make entryVa nm reasons).runBBOps ops).eraseBasicBlock
      ((Function.make entryVa nm reasons).runBBOps ops).entryVa = none := by
    simp [Function.eraseBasicBlock]
  refine ⟨hmem, herase, ?_⟩
  simp only [Function.applyBBOp, Function.address]
  rw [herase]

/-- C6: on a thawed Function, insertBasicBlock of an already-owned address
returns false and changes nothing, while insertBasicBlock of a new
address adds it to the set, clears the cached no-op analysis result, and
returns true. -/
theorem insertBasicBlock_contract (f : Function) (va : Nat) (h : f.isFrozen = false) :
    (va ∈ f.bblockVas → f.insertBasicBlock va = some (f, false)) ∧
    (va ∉ f.bblockVas → f.insertBasicBlock va =
      some ({ f with bblockVas := insert va f.bblockVas, isNoop := none }, true)) := by
  constructor
  · intro hm
    rw [Function.insertBasicBlock, if_neg (by simp [h]), if_pos hm,
      Finset.insert_eq_self.mpr hm]
  · intro hm
    simp [Function.insertBasicBlock, h, hm, Function.clearCache]

theorem insertBasicBlock_contract_witness :
    ((Function.make 4096 "" 0).insertBasicBlock 4096 = some (Function.make 4096 "" 0, false)) ∧
    ((Function.make 4096 "" 0).insertBasicBlock 4097 =
      some ({ Function.make 4096 "" 0 with
                bblockVas := insert 4097 (Function.make 4096 "" 0).bblockVas,
                isNoop := none }, true)) :=
  ⟨(insertBasicBlock_contract (Function.make 4096 "" 0) 4096 rfl).1 (by decide),
   (insertBasicBlock_contract (Function.make 4096 "" 0) 4097 rfl).2 (by decide)⟩

/-- C7 counterexample: erasing a non-owned, non-entry address from a
thawed function is claimed to leave all observable state, including the
cached no-op analysis result, unchanged; but the source calls
clearCache() unconditionally before erasing, so a cached no-op result is
lost.  At this concrete input the call succeeds, the basic-block set is
untouched, yet the result differs from the original function because
isNoop has been reset. -/
theorem eraseBasicBlock_cache_counterexample :
    noopCachedFn.isFrozen = false ∧
    (8192 ∉ noopCachedFn.bblockVas) ∧
    8192 ≠ noopCachedFn.entryVa ∧
    noopCachedFn.isNoop = some true ∧
    (noopCachedFn.eraseBasicBlock 8192).map Function.isNoop = some none ∧
    noopCachedFn.eraseBasicBlock 8192 ≠ some noopCachedFn := by
  refine ⟨rfl, by decide, by decide, rfl, ?_, ?_⟩ <;> decide

/-- C7 amended: on a thawed Function, erasing an address that is neither
owned nor the entry address succeeds and leaves every field unchanged
except the cached no-op analysis result, which is cleared (the source
calls clearCache() before the erase, with no ownership test). -/
theorem eraseBasicBlock_notOwned_clears_cache_only (f : Function) (va : Nat)
    (h1 : f.isFrozen = false) (h2 : va ∉ f.bblockVas) (h3 : va ≠ f.entryVa) :
    f.eraseBasicBlock va = some { f with isNoop := none } := by
  simp [Function.eraseBasicBlock, h1, h3, Function.clearCache, Finset.erase_eq_self.mpr h2]

theorem eraseBasicBlock_notOwned_clears_cache_only_witness :
    noopCachedFn.eraseBasicBlock 8192 = some { noopCachedFn with isNoop := none } :=
  eraseBasicBlock_notOwned_clears_cache_only noopCachedFn 8192 rfl (by decide) (by decide)

/-- C10: freezing restricts only the structural block-set mutators; the
non-structural setters for name, comment and the reason bitmask succeed
on a frozen function with no precondition check, update the corresponding
field (insertReasons sets every requested bit, eraseReasons clears every
requested bit), and leave the basic-block address set unchanged. -/
theorem frozen_nonstructural_setters (f : Function) (s t : String) (u r : Nat)
    (_h : f.isFrozen = true) :
    (f.setName s).name = s ∧ (f.setName s).bblockVas = f.bblockVas ∧
    (f.setComment t).comment = t ∧ (f.setComment t).bblockVas = f.bblockVas ∧
    (f.setReasons u).reasons = u ∧ (f.setReasons u).bblockVas = f.bblockVas ∧
    (f.insertReasons r).reasons &&& r = r ∧ (f.insertReasons r).bblockVas = f.bblockVas ∧
    (f.eraseReasons r).reasons &&& r = 0 ∧ (f.eraseReasons r).bblockVas = f.bblockVas := by
  refine ⟨rfl, rfl, rfl, rfl, rfl, rfl, ?_, rfl, ?_, rfl⟩
  · show (f.reasons ||| r) &&& r = r
    apply Nat.eq_of_testBit_eq
    intro i
    simp [Nat.testBit_land, Nat.testBit_lor]
    tauto
  · show (Nat.ldiff f.reasons r) &&& r = 0
    apply Nat.eq_of_testBit_eq
    intro i
    simp [Nat.testBit_land, Nat.testBit_ldiff]

theorem frozen_nonstructural_setters_witness :
    let f := (Function.make 4096 "" 5).freeze
    (f.setName "abc").name = "abc" ∧ (f.setName "abc").bblockVas = f.bblockVas ∧
    (f.setComment "c").comment = "c" ∧ (f.setComment "c").bblockVas = f.bblockVas ∧
    (f.setReasons 9).reasons = 9 ∧ (f.setReasons 9).bblockVas = f.bblockVas ∧
    (f.insertReasons 12).reasons &&& 12 = 12 ∧ (f.insertReasons 12).bblockVas = f.bblockVas ∧
    (f.eraseReasons 12).reasons &&& 12 = 0 ∧ (f.eraseReasons 12).bblockVas = f.bblockVas :=
  frozen_nonstructural_setters ((Function.make 4096 "" 5).freeze) "abc" "c" 9 12 rfl

/-- C9: a newly constructed Disassembler reports get_search() ==
SEARCH_DEFAULT, SEARCH_DEFAULT is exactly SEARCH_FOLLOWING |
SEARCH_FUNCSYMS (0x0001 | 0x0100 = 0x0101), and no other heuristic bit of
the SearchHeuristic enumeration is included in it. -/
theorem default_search_heuristics :
    Disassembler.init.get_search = SEARCH_DEFAULT ∧
    SEARCH_DEFAULT = (SEARCH_FOLLOWING ||| SEARCH_FUNCSYMS) ∧
    SEARCH_DEFAULT = 0x0101 ∧
    SEARCH_DEFAULT &&& SEARCH_FOLLOWING = SEARCH_FOLLOWING ∧
    SEARCH_DEFAULT &&& SEARCH_FUNCSYMS = SEARCH_FUNCSYMS ∧
    SEARCH_DEFAULT &&& (SEARCH_IMMEDIATE ||| SEARCH_WORDS ||| SEARCH_ALLBYTES |||
      SEARCH_UNUSED ||| SEARCH_NONEXE ||| SEARCH_DEADEND ||| SEARCH_UNKNOWN) = 0 := by
  refine ⟨rfl, by decide, rfl, by decide, by decide, by decide⟩

theorem disassembleBlockR_midblock_failure (dec : Nat → Option Instr)
    (prefixInsns : List Instr) :
    ∀ va endVa fuel isFirst, decodesChain dec va prefixInsns endVa → prefixInsns ≠ [] →
    dec endVa = none → prefixInsns.length < fuel →
    disassembleBlockR dec true fuel va isFirst = Except.ok (prefixInsns, [endVa]) ∧
    disassembleBlockR dec false fuel va isFirst = Except.error endVa := by
  induction prefixInsns with
  | nil => intro va endVa fuel isFirst _ hne; exact absurd rfl hne
  | cons insn rest ih =>
    intro va endVa fuel isFirst hchain _ hfail hfuel
    obtain ⟨hdec, hcont, hrest⟩ := hchain
    cases fuel with
    | zero => exact absurd hfuel (by simp)
    | succ f =>
      have hf : rest.length < f := by
        simpa [Nat.succ_lt_succ_iff] using hfuel
      cases rest with
      | nil =>
        cases hrest
        cases f with
        | zero => exact absurd hf (by simp)
        | succ f2 =>
          constructor
          · simp [disassembleBlockR, hdec, hcont, hfail]
          · simp [disassembleBlockR, hdec, hcont, hfail]
      | cons insn2 rest2 =>
        have := ih (va + insn.size) endVa f false hrest (by simp) hfail hf
        constructor
        · simp [disassembleBlockR, hdec, hcont, this.1]
        · simp [disassembleBlockR, hdec, hcont, this.2]

/-- C3: when disassembleBlock hits a decode failure after having decoded a
non-empty straight-line prefix, then with the SEARCH_DEADEND policy set
it returns the block truncated before the failing instruction with the
failing instruction's address added as a successor, and with the policy
clear it discards the partially built block and throws an exception whose
address is the failing instruction's address, returning no block and no
successors. -/
theorem disassembleBlock_decode_failure (dec : Nat → Option Instr)
    (va endVa fuel : Nat) (prefixInsns : List Instr)
    (hchain : decodesChain dec va prefixInsns endVa)
    (hne : prefixInsns ≠ [])
    (hfail : dec endVa = none)
    (hfuel : prefixInsns.length < fuel) :
    disassembleBlock dec true fuel va = Except.ok (prefixInsns, [endVa]) ∧
    disassembleBlock dec false fuel va = Except.error endVa :=
  disassembleBlockR_midblock_failure dec prefixInsns va endVa fuel true hchain hne hfail hfuel

theorem disassembleBlock_decode_failure_witness :
    disassembleBlock truncDec true 8 0 = Except.ok ([⟨0, 1, [1]⟩, ⟨1, 1, [2]⟩], [2]) ∧
    disassembleBlock truncDec false 8 0 = Except.error 2 :=
  disassembleBlock_decode_failure truncDec 0 2 8 [⟨0, 1, [1]⟩, ⟨1, 1, [2]⟩]
    ⟨rfl, rfl, rfl, rfl, rfl⟩ (by simp) rfl (by simp)

theorem disassembleBlockR_block_structure (dec : Nat → Option Instr)
    (hdec : ∀ va i, dec va = some i → i.addr = va) :
    ∀ fuel va isFirst insns succs,
    disassembleBlockR dec false fuel va isFirst = Except.ok (insns, succs) →
    insns ≠ [] ∧ (∀ hd, insns.head? = some hd → hd.addr = va) ∧ chainedB insns = true ∧
    (∀ l, insns.getLast? = some l → l.succs ≠ [l.addr + l.size] ∧ succs = l.succs) := by
  intro fuel
  induction fuel with
  | zero =>
    intro va isFirst insns succs h
    exact absurd h (by simp [disassembleBlockR])
  | succ f ih =>
    intro va isFirst insns succs h
    cases hdva : dec va with
    | none =>
      simp [disassembleBlockR, hdva, ite_self] at h
    | some insn =>
      simp only [disassembleBlockR, hdva] at h
      by_cases hcont : insn.succs = [va + insn.size]
      · rw [if_pos hcont] at h
        cases hin : disassembleBlockR dec false f (va + insn.size) false with
        | error e => rw [hin] at h; exact absurd h (by simp)
        | ok pr =>
          obtain ⟨rest, s⟩ := pr
          rw [hin] at h
          have h2 : insn :: rest = insns ∧ s = succs := by
            constructor <;> [skip; skip] <;> injection h with h3 <;> cases h3 <;> rfl
          obtain ⟨h3, h4⟩ := h2
          subst h3; subst h4
          obtain ⟨ihne, ihhead, ihchain, ihlast⟩ := ih (va + insn.size) false rest s hin
          have haddr : insn.addr = va := hdec va insn hdva
          refine ⟨by simp, ?_, ?_, ?_⟩
          · intro hd hh
            simp only [List.head?_cons, Option.some.injEq] at hh
            rw [← hh]; exact haddr
          · cases rest with
            | nil => exact absurd rfl ihne
            | cons b rest2 =>
              have hb : b.addr = va + insn.size := ihhead b rfl
              simp only [chainedB, Bool.and_eq_true, decide_eq_true_eq]
              refine ⟨⟨?_, ?_⟩, ?_⟩
              · rw [haddr]; exact hcont
              · rw [haddr]; exact hb
              · simpa [chainedB] using ihchain
          · intro l hl
            cases rest with
            | nil => exact absurd rfl ihne
            | cons b rest2 =>
              rw [List.getLast?_cons_cons] at hl
              exact ihlast l hl
      · rw [if_neg hcont] at h
        have h2 : [insn] = insns ∧ insn.succs = succs := by
          constructor <;> [skip; skip] <;> injection h with h3 <;> cases h3 <;> rfl
        obtain ⟨h3, h4⟩ := h2
        subst h3; subst h4
        have haddr : insn.addr = va := hdec va insn hdva
        refine ⟨by simp, ?_, rfl, ?_⟩
        · intro hd hh
          simp only [List.head?_cons, Option.some.injEq] at hh
          rw [← hh]; exact haddr
        · intro l hl
          simp only [List.getLast?_singleton, Option.some.injEq] at hl
          subst hl
          exact ⟨by rw [haddr]; exact hcont, rfl⟩

/-- C5 amended: for every basic block returned by disassembleBlock with
the dead-end policy clear (so no dead-end block can be returned), every
non-final instruction has exactly one successor, equal to the address of
the next instruction in the block; the final instruction's successor set
is anything other than the singleton containing its own fall-through
address (zero successors, several successors, or one successor that is
not the fall-through), and the block's successor set is the final
instruction's successor set. -/
theorem disassembleBlock_termination_invariant (dec : Nat → Option Instr)
    (hdec : ∀ va i, dec va = some i → i.addr = va)
    (fuel va : Nat) (insns : List Instr) (succs : List Nat)
    (h : disassembleBlock dec false fuel va = Except.ok (insns, succs)) :
    insns ≠ [] ∧ chainedB insns = true ∧
    (∀ l, insns.getLast? = some l → l.succs ≠ [l.addr + l.size] ∧ succs = l.succs) := by
  obtain ⟨h1, _, h3, h4⟩ := disassembleBlockR_block_structure dec hdec fuel va true insns succs h
  exact ⟨h1, h3, h4⟩

theorem nopRetDec_wf : ∀ va i, nopRetDec va = some i → i.addr = va := by
  intro va i h
  unfold nopRetDec at h
  split at h
  next hva => injection h with h2; subst h2; simp [hva]
  next =>
    split at h
    next hva2 => injection h with h2; subst h2; simp [hva2]
    next => exact absurd h (by simp)

theorem disassembleBlock_termination_invariant_witness :
    ([⟨0, 1, [1]⟩, ⟨1, 1, []⟩] : List Instr) ≠ [] ∧
    chainedB [⟨0, 1, [1]⟩, ⟨1, 1, []⟩] = true ∧
    (∀ l, ([⟨0, 1, [1]⟩, (⟨1, 1, []⟩ : Instr)]).getLast? = some l →
      l.succs ≠ [l.addr + l.size] ∧ ([] : List Nat) = l.succs) :=
  disassembleBlock_termination_invariant nopRetDec nopRetDec_wf 5 0
    [⟨0, 1, [1]⟩, ⟨1, 1, []⟩] [] (by rfl)

/-- C5 counterexample: with the dead-end policy clear (so the returned
block is not a dead-end block), disassembleBlock at 0 returns a block
whose final (only) instruction is an unconditional jump with exactly one
successor; the claim that the final instruction of every such block has
either zero successors or more than one successor is false at this
input. -/
theorem block_final_single_successor_counterexample :
    disassembleBlock jmpDec false 4 0 = Except.ok ([jmpInstr], [16]) ∧
    [jmpInstr].getLast? = some jmpInstr ∧
    jmpInstr.succs.length = 1 ∧
    ¬(jmpInstr.succs.length = 0 ∨ 1 < jmpInstr.succs.length) := by
  refine ⟨rfl, rfl, rfl, by decide⟩

theorem disassembleBlockR_fuel_mono (dec : Nat → Option Instr) (de : Bool) :
    ∀ fuel fuel2 va b insns succs,
    disassembleBlockR dec de fuel va b = Except.ok (insns, succs) → fuel ≤ fuel2 →
    disassembleBlockR dec de fuel2 va b = Except.ok (insns, succs) := by
  intro fuel
  induction fuel with
  | zero => intro fuel2 va b insns succs h _; simp [disassembleBlockR] at h
  | succ f ih =>
    intro fuel2 va b insns succs h hle
    cases fuel2 with
    | zero => omega
    | succ f2 =>
      have hle2 : f ≤ f2 := by omega
      cases hdva : dec va with
      | none =>
        simp only [disassembleBlockR, hdva] at h ⊢
        exact h
      | some insn =>
        simp only [disassembleBlockR, hdva] at h ⊢
        by_cases hcont : insn.succs = [va + insn.size]
        · rw [if_pos hcont] at h ⊢
          cases hin : disassembleBlockR dec de f (va + insn.size) false with
          | error e => rw [hin] at h; simp at h
          | ok pr =>
            obtain ⟨rest, s⟩ := pr
            rw [hin] at h
            rw [ih f2 (va + insn.size) false rest s hin hle2]
            exact h
        · rw [if_neg hcont] at h ⊢
          exact h

theorem disassembleBlockR_first_irrel (dec : Nat → Option Instr) (de : Bool)
    (fuel va : Nat) (insn : Instr) (b b2 : Bool) (h : dec va = some insn) :
    disassembleBlockR dec de (fuel+1) va b = disassembleBlockR dec de (fuel+1) va b2 := by
  simp only [disassembleBlockR, h]

theorem disassembleBlockR_suffix (dec : Nat → Option Instr)
    (hdec : ∀ va i, dec va = some i → i.addr = va) (de : Bool) :
    ∀ fuel va b insns succs,
    disassembleBlockR dec de fuel va b = Except.ok (insns, succs) →
    ∀ i ∈ insns, ∃ insns2 succs2,
      disassembleBlockR dec de fuel i.addr true = Except.ok (insns2, succs2) := by
  intro fuel
  induction fuel with
  | zero => intro va b insns succs h; simp [disassembleBlockR] at h
  | succ f ih =>
    intro va b insns succs h i hi
    have horig := h
    cases hdva : dec va with
    | none =>
      simp only [disassembleBlockR, hdva] at h
      by_cases hb : b
      · rw [if_pos (by simp [hb])] at h; simp at h
      · rw [if_neg (by simp [hb])] at h
        cases de with
        | false => simp at h
        | true =>
          rw [if_pos rfl] at h
          have h1 : insns = [] := by
            injection h with h2
            exact (congrArg Prod.fst h2).symm
          rw [h1] at hi
          exact absurd hi (List.not_mem_nil i)
    | some insn =>
      simp only [disassembleBlockR, hdva] at h
      by_cases hcont : insn.succs = [va + insn.size]
      · rw [if_pos hcont] at h
        cases hin : disassembleBlockR dec de f (va + insn.size) false with
        | error e => rw [hin] at h; simp at h
        | ok pr =>
          obtain ⟨rest, s⟩ := pr
          rw [hin] at h
          simp only [Except.ok.injEq, Prod.mk.injEq] at h
          obtain ⟨h1, h2⟩ := h
          rcases List.mem_cons.mp (by rw [← h1] at hi; exact hi) with hi1 | hi2
          · subst hi1
            refine ⟨insns, succs, ?_⟩
            rw [hdec va i hdva]
            rw [disassembleBlockR_first_irrel dec de f va i true b hdva]
            exact horig
          · obtain ⟨i2, s2, hok⟩ := ih (va + insn.size) false rest s hin i hi2
            exact ⟨i2, s2,
              disassembleBlockR_fuel_mono dec de f (f+1) i.addr true i2 s2 hok (Nat.le_succ f)⟩
      · rw [if_neg hcont] at h
        have h1 : insns = [insn] := by
          injection h with h2
          exact (congrArg Prod.fst h2).symm
        rw [h1] at hi
        simp only [List.mem_singleton] at hi
        rw [hi]
        refine ⟨[insn], insn.succs, ?_⟩
        rw [hdec va insn hdva]
        simp only [disassembleBlockR, hdva, if_neg hcont]

theorem disassembleBlock_ok_start_mem (dec : Nat → Option Instr)
    (hdec : ∀ va i, dec va = some i → i.addr = va) (de : Bool)
    (bfuel va : Nat) (binsns : List Instr) (bsuccs : List Nat)
    (h : disassembleBlock dec de bfuel va = Except.ok (binsns, bsuccs)) :
    va ∈ binsns.map Instr.addr := by
  cases bfuel with
  | zero => simp [disassembleBlock, disassembleBlockR] at h
  | succ f =>
    cases hdva : dec va with
    | none => simp [disassembleBlock, disassembleBlockR, hdva] at h
    | some insn =>
      simp only [disassembleBlock, disassembleBlockR, hdva] at h
      by_cases hcont : insn.succs = [va + insn.size]
      · rw [if_pos hcont] at h
        cases hin : disassembleBlockR dec de f (va + insn.size) false with
        | error e => rw [hin] at h; simp at h
        | ok pr =>
          obtain ⟨rest, s⟩ := pr
          rw [hin] at h
          simp only [Except.ok.injEq, Prod.mk.injEq] at h
          obtain ⟨h1, _⟩ := h
          rw [← h1]
          simp [hdec va insn hdva]
      · rw [if_neg hcont] at h
        simp only [Except.ok.injEq, Prod.mk.injEq] at h
        obtain ⟨h1, _⟩ := h
        rw [← h1]
        simp [hdec va insn hdva]

theorem dStep_preserves (dec : Nat → Option Instr)
    (hdec : ∀ va i, dec va = some i → i.addr = va) (search bfuel : Nat)
    (st : DisState) (h : st.worklist.Nonempty)
    (hinv : SettledInv dec (decide (search &&& SEARCH_DEADEND ≠ 0)) bfuel st) :
    SettledInv dec (decide (search &&& SEARCH_DEADEND ≠ 0)) bfuel
      (dStep dec search bfuel st h) := by
  obtain ⟨hok, hbad, hnd, htried⟩ := hinv
  unfold dStep
  by_cases hskip : st.worklist.min' h ∈ st.insns ∨ st.worklist.min' h ∈ st.bad
  · rw [if_pos hskip]
    exact ⟨hok, hbad, hnd, htried⟩
  · rw [if_neg hskip]
    cases hres : disassembleBlock dec (decide (search &&& SEARCH_DEADEND ≠ 0)) bfuel
        (st.worklist.min' h) with
    | ok pr =>
      obtain ⟨binsns, bsuccs⟩ := pr
      have hva : st.worklist.min' h ∉ st.tried := fun hmem => hskip (htried _ hmem)
      refine ⟨?_, hbad, ?_, ?_⟩
      · intro a ha
        rcases Finset.mem_union.mp ha with ha1 | ha2
        · exact hok a ha1
        · rw [List.mem_toFinset] at ha2
          obtain ⟨i, hi, hia⟩ := List.mem_map.mp ha2
          obtain ⟨l2, s2, hok2⟩ := disassembleBlockR_suffix dec hdec _ bfuel
            (st.worklist.min' h) true binsns bsuccs hres i hi
          rw [← hia]
          exact ⟨l2, s2, hok2⟩
      · simp [List.nodup_append, hnd, hva]
      · intro a ha
        rcases List.mem_append.mp ha with ha1 | ha2
        · rcases htried a ha1 with hx | hx
          · exact Or.inl (Finset.mem_union_left _ hx)
          · exact Or.inr hx
        · simp only [List.mem_singleton] at ha2
          subst ha2
          left
          apply Finset.mem_union_right
          rw [List.mem_toFinset]
          exact disassembleBlock_ok_start_mem dec hdec _ bfuel _ binsns bsuccs hres
    | error e =>
      have hva : st.worklist.min' h ∉ st.tried := fun hmem => hskip (htried _ hmem)
      refine ⟨hok, ?_, ?_, ?_⟩
      · intro a ha
        rcases Finset.mem_insert.mp ha with ha1 | ha2
        · subst ha1; exact ⟨e, hres⟩
        · exact hbad a ha2
      · simp [List.nodup_append, hnd, hva]
      · intro a ha
        rcases List.mem_append.mp ha with ha1 | ha2
        · rcases htried a ha1 with hx | hx
          · exact Or.inl hx
          · exact Or.inr (Finset.mem_insert_of_mem hx)
        · simp only [List.mem_singleton] at ha2
          subst ha2
          exact Or.inr (Finset.mem_insert_self _ _)

theorem dRun_preserves (dec : Nat → Option Instr)
    (hdec : ∀ va i, dec va = some i → i.addr = va) (search bfuel : Nat) :
    ∀ ofuel st, SettledInv dec (decide (search &&& SEARCH_DEADEND ≠ 0)) bfuel st →
    SettledInv dec (decide (search &&& SEARCH_DEADEND ≠ 0)) bfuel
      (dRun dec search bfuel ofuel st) := by
  intro ofuel
  induction ofuel with
  | zero => intro st hinv; exact hinv
  | succ n ih =>
    intro st hinv
    rw [dRun]
    by_cases h : st.worklist.Nonempty
    · rw [dif_pos h]
      exact ih _ (dStep_preserves dec hdec search bfuel st h hinv)
    · rw [dif_neg h]
      exact hinv

/-- C4: during one disassembleBuffer pass, an address already present in
the InstructionMap or in the BadMap is never attempted again — when such
an address is taken from the worklist it is dropped without a new attempt
and without modifying either map or the trace; the trace of attempted
addresses never repeats an address; and on completion the InstructionMap
and BadMap key sets are disjoint, so every address appears in at most one
of the two maps. -/
theorem disassembleBuffer_settled_once (dec : Nat → Option Instr)
    (hdec : ∀ va i, dec va = some i → i.addr = va)
    (search bfuel ofuel : Nat) (workset : List Nat) :
    ((disassembleBuffer dec search bfuel ofuel workset).tried.Nodup ∧
     Disjoint (disassembleBuffer dec search bfuel ofuel workset).insns
       (disassembleBuffer dec search bfuel ofuel workset).bad) ∧
    (∀ st2 (h2 : st2.worklist.Nonempty),
      (st2.worklist.min' h2 ∈ st2.insns ∨ st2.worklist.min' h2 ∈ st2.bad) →
      (dStep dec search bfuel st2 h2).insns = st2.insns ∧
      (dStep dec search bfuel st2 h2).bad = st2.bad ∧
      (dStep dec search bfuel st2 h2).tried = st2.tried) := by
  have hinv : SettledInv dec (decide (search &&& SEARCH_DEADEND ≠ 0)) bfuel
      (disassembleBuffer dec search bfuel ofuel workset) := by
    unfold disassembleBuffer
    apply dRun_preserves dec hdec
    refine ⟨?_, ?_, List.nodup_nil, ?_⟩ <;> intro a ha <;> simp at ha
  obtain ⟨hok, hbad, hnd, _⟩ := hinv
  refine ⟨⟨hnd, ?_⟩, ?_⟩
  · rw [Finset.disjoint_left]
    intro a ha hb
    obtain ⟨l, s, h1⟩ := hok a ha
    obtain ⟨e, h2⟩ := hbad a hb
    rw [h1] at h2
    exact absurd h2 (by simp)
  · intro st2 h2 hsk
    unfold dStep
    rw [if_pos hsk]
    exact ⟨rfl, rfl, rfl⟩

theorem disassembleBuffer_settled_once_witness :
    (((disassembleBuffer nopRetDec SEARCH_DEFAULT 5 4 [0]).tried.Nodup ∧
      Disjoint (disassembleBuffer nopRetDec SEARCH_DEFAULT 5 4 [0]).insns
        (disassembleBuffer nopRetDec SEARCH_DEFAULT 5 4 [0]).bad) ∧
     (∀ st2 (h2 : st2.worklist.Nonempty),
       (st2.worklist.min' h2 ∈ st2.insns ∨ st2.worklist.min' h2 ∈ st2.bad) →
       (dStep nopRetDec SEARCH_DEFAULT 5 st2 h2).insns = st2.insns ∧
       (dStep nopRetDec SEARCH_DEFAULT 5 st2 h2).bad = st2.bad ∧
       (dStep nopRetDec SEARCH_DEFAULT 5 st2 h2).tried = st2.tried)) :=
  disassembleBuffer_settled_once nopRetDec nopRetDec_wf SEARCH_DEFAULT 5 4 [0]

/-- C8: the outcome of a disassembleBuffer pass is a pure function of the
memory contents (decoder), the heuristic bitmask, and the seed worklist
set: two runs whose seed worklists contain the same addresses (in any
presentation order, as the C++ workset is an address set) settle the same
addresses in the same order, producing identical InstructionMap key sets,
identical BadMap key sets, and the identical attempt sequence. -/
theorem disassembleBuffer_deterministic (dec : Nat → Option Instr)
    (search bfuel ofuel : Nat) (l1 l2 : List Nat) (hperm : l1.Perm l2) :
    (disassembleBuffer dec search bfuel ofuel l1).insns =
      (disassembleBuffer dec search bfuel ofuel l2).insns ∧
    (disassembleBuffer dec search bfuel ofuel l1).bad =
      (disassembleBuffer dec search bfuel ofuel l2).bad ∧
    (disassembleBuffer dec search bfuel ofuel l1).tried =
      (disassembleBuffer dec search bfuel ofuel l2).tried := by
  unfold disassembleBuffer
  rw [List.toFinset_eq_of_perm l1 l2 hperm]
  exact ⟨rfl, rfl, rfl⟩

theorem disassembleBuffer_deterministic_witness :
    (disassembleBuffer nopRetDec SEARCH_DEFAULT 5 4 [1, 0]).insns =
      (disassembleBuffer nopRetDec SEARCH_DEFAULT 5 4 [0, 1]).insns ∧
    (disassembleBuffer nopRetDec SEARCH_DEFAULT 5 4 [1, 0]).bad =
      (disassembleBuffer nopRetDec SEARCH_DEFAULT 5 4 [0, 1]).bad ∧
    (disassembleBuffer nopRetDec SEARCH_DEFAULT 5 4 [1, 0]).tried =
      (disassembleBuffer nopRetDec SEARCH_DEFAULT 5 4 [0, 1]).tried :=
  disassembleBuffer_deterministic nopRetDec SEARCH_DEFAULT 5 4 [1, 0] [0, 1] (by decide)

end Rose
